import Mathlib

/-!
Verification development for the `ifc-validator` viewer's element property
resolution and presentation engine (`src/viewer/src/main.ts`).

The embedding models JavaScript runtime values with the `JValue` type.
JavaScript objects are modelled as association lists in insertion order
(property re-assignment keeps the original position, matching JS object and
`Map` semantics), numbers as rationals (the source never exercises NaN or
infinities in the modelled paths), and `undefined` as a distinguished value.
Exceptions thrown by the modelled code are represented with `Except Unit`.
-/

/-- A JavaScript runtime value, as manipulated by the viewer's data layer. -/
inductive JValue : Type where
  | vNull : JValue
  | vUndefined : JValue
  | vStr : String → JValue
  | vNum : Rat → JValue
  | vBool : Bool → JValue
  | vObj : List (String × JValue) → JValue
  | vArr : List JValue → JValue

/-- JavaScript truthiness: `null`, `undefined`, `false`, `""` and `0` are
falsy; every object and array is truthy. -/
def truthy : JValue → Bool
  | .vNull => false
  | .vUndefined => false
  | .vStr s => decide (s ≠ "")
  | .vNum n => decide (n ≠ 0)
  | .vBool b => b
  | .vObj _ => true
  | .vArr _ => true

/-- Whether `typeof v === "object"` (true for `null`, plain objects and arrays). -/
def jsTypeofObject : JValue → Bool
  | .vNull => true
  | .vObj _ => true
  | .vArr _ => true
  | _ => false

/-- One of `v.vStr`, `v.vNum`, `v.vBool`: a bare scalar. -/
def isScalar : JValue → Bool
  | .vStr _ => true
  | .vNum _ => true
  | .vBool _ => true
  | _ => false

/-- Property read `v[k]` on a value known not to be `null`/`undefined`:
yields the stored value, or `undefined` when the key is absent or the value
is not a plain object (property reads on primitives and arrays used by this
code always yield `undefined`). -/
def jsGet (v : JValue) (k : String) : JValue :=
  match v with
  | .vObj fields => (fields.lookup k).getD .vUndefined
  | _ => .vUndefined

/-- Property read `v[k]` where `v` may be `null`/`undefined`, in which case
JavaScript throws a `TypeError`. -/
def jsGetE (v : JValue) (k : String) : Except Unit JValue :=
  match v with
  | .vNull => .error ()
  | .vUndefined => .error ()
  | _ => .ok (jsGet v k)

/-- Model of `Object.entries(v)` for the shapes reachable in the modelled code:
field list for an object, index-keyed entries for an array, `[]` for
primitives. -/
def objFields : JValue → List (String × JValue)
  | .vObj f => f
  | .vArr l => l.enum.map fun p => (toString p.1, p.2)
  | _ => []

/-- Rendering of a value by a JS template literal / `String(...)`.  The
claims only exercise this on strings; the other branches are the obvious
renderings (the numeric branch uses Lean's rational rendering, which is not
exercised by any theorem below). -/
def jstr : JValue → String
  | .vNull => "null"
  | .vUndefined => "undefined"
  | .vStr s => s
  | .vNum n => toString n
  | .vBool b => if b then "true" else "false"
  | .vObj _ => "[object Object]"
  | .vArr _ => ""

/-- Assignment `m[k] = v` on a JS object / `Map`: overwrite in place if the key is
present (keeping its position), otherwise append. -/
def setKey {α β : Type} [DecidableEq α] : List (α × β) → α → β → List (α × β)
  | [], k, v => [(k, v)]
  | (k', v') :: rest, k, v =>
    if k' = k then (k, v) :: rest else (k', v') :: setKey rest k v

/-- Key lookup in the association-list model of a JS object / `Map`. -/
def lookupKey {α β : Type} [DecidableEq α] : List (α × β) → α → Option β
  | [], _ => none
  | (k', v') :: rest, k => if k' = k then some v' else lookupKey rest k

/-- The helper `extractValue` (main.ts:426-435): normalize a raw IFC attribute.
Falsy inputs map to `null`; an object with a `value` key yields that member;
a (truthy) bare scalar is returned as-is; anything else yields `null`. -/
def extractValue (attr : JValue) : JValue :=
  if truthy attr = false then .vNull
  else
    match attr with
    | .vObj fields =>
      match fields.lookup "value" with
      | some v => v
      | none => .vNull
    | .vStr s => .vStr s
    | .vNum n => .vNum n
    | .vBool b => .vBool b
    | _ => .vNull

/-- Substring test on character lists (`String.prototype.includes`). -/
def charsHasPre : List Char → List Char → Bool
  | _, [] => true
  | [], _ :: _ => false
  | c :: cs, d :: ds => c = d && charsHasPre cs ds

/-- Whether `sub` occurs contiguously in `l`. -/
def charsIncludes : List Char → List Char → Bool
  | [], sub => sub.isEmpty
  | c :: cs, sub => charsHasPre (c :: cs) sub || charsIncludes cs sub

/-- Model of `s.includes(sub)`. -/
def strIncludes (s sub : String) : Bool :=
  charsIncludes s.toList sub.toList

/-- The helper `getQuantityUnit` (main.ts:438-446): keyword-based unit inference from a
quantity type name. -/
def getQuantityUnit (quantityType : String) : String :=
  if strIncludes quantityType "Volume" then "m³"
  else if strIncludes quantityType "Area" then "m²"
  else if strIncludes quantityType "Length" || strIncludes quantityType "Width" ||
      strIncludes quantityType "Height" || strIncludes quantityType "Depth" ||
      strIncludes quantityType "Perimeter" then "m"
  else if strIncludes quantityType "Weight" || strIncludes quantityType "Mass" then "kg"
  else if strIncludes quantityType "Count" then "ud"
  else if strIncludes quantityType "Time" then "s"
  else ""

/-- One emitted quantity: a resolved numeric value with its display unit. -/
structure Quantity : Type where
  value : Rat
  unit : String
deriving DecidableEq

/-- A quantity set: quantity name to quantity, in insertion order. -/
abbrev QSet := List (String × Quantity)

/-- The result shape of `formatQuantitySets`. -/
abbrev QSets := List (String × QSet)

/-- Whether `qObj[k] !== undefined`. -/
def isDefined (qObj : JValue) (k : String) : Bool :=
  match jsGet qObj k with
  | .vUndefined => false
  | _ => true

/-- The six-branch value probe of `formatQuantitySets` (main.ts:478-496):
the first defined field among `LengthValue`, `AreaValue`, `VolumeValue`,
`WeightValue`, `CountValue`, `TimeValue` selects the (extracted) value and
the table unit; `none` when no field is defined. -/
def probeQuantityValue (qObj : JValue) : Option (JValue × String) :=
  if isDefined qObj "LengthValue" then some (extractValue (jsGet qObj "LengthValue"), "m")
  else if isDefined qObj "AreaValue" then some (extractValue (jsGet qObj "AreaValue"), "m²")
  else if isDefined qObj "VolumeValue" then some (extractValue (jsGet qObj "VolumeValue"), "m³")
  else if isDefined qObj "WeightValue" then some (extractValue (jsGet qObj "WeightValue"), "kg")
  else if isDefined qObj "CountValue" then some (extractValue (jsGet qObj "CountValue"), "ud")
  else if isDefined qObj "TimeValue" then some (extractValue (jsGet qObj "TimeValue"), "s")
  else none

/-- The ordered probe table of §3 of the spec, written as data: this is the
spec-side formulation of the fixed probing order, to be compared against the
source's if-chain `probeQuantityValue`. -/
def quantityFieldTable : List (String × String) :=
  [("LengthValue", "m"), ("AreaValue", "m²"), ("VolumeValue", "m³"),
   ("WeightValue", "kg"), ("CountValue", "ud"), ("TimeValue", "s")]

/-- Spec-side probe: first defined field of the ordered table wins. -/
def probeFirstDefined (qObj : JValue) : Option (JValue × String) :=
  (quantityFieldTable.find? fun p => isDefined qObj p.1).map
    fun p => (extractValue (jsGet qObj p.1), p.2)

/-- The body of the quantity loop of `formatQuantitySets` (main.ts:467-506)
for one sub-record: `.ok none` means the sub-record is skipped, `.ok (some
(name, q))` means `quantities[name] = q`.  When no probed value survives
and `type` is truthy, the source calls `getQuantityUnit(qObj.type)`, whose
`quantityType.includes(...)` call succeeds for strings
(`String.prototype.includes`) and for arrays (`Array.prototype.includes`,
returning a boolean) — in both cases the inferred unit is dead because
emission requires a non-null value, so the quantity is simply dropped —
but raises a `TypeError` (`.error ()`) for a truthy number, boolean or
plain object, none of which has an `includes` method. -/
def processQuantity (q : JValue) : Except Unit (Option (String × Quantity)) :=
  if ¬ (truthy q && jsTypeofObject q) then .ok none
  else
    match extractValue (jsGet q "Name") with
    | .vStr s =>
      if s = "" then .ok none
      else
        match probeQuantityValue q with
        | some (.vNum x, u) => .ok (some (s, ⟨x, u⟩))
        | some (.vNull, _) =>
          if truthy (jsGet q "type") then
            match jsGet q "type" with
            | .vStr _ => .ok none
            | .vArr _ => .ok none
            | _ => .error ()
          else .ok none
        | some (_, _) => .ok none
        | none =>
          if truthy (jsGet q "type") then
            match jsGet q "type" with
            | .vStr _ => .ok none
            | .vArr _ => .ok none
            | _ => .error ()
          else .ok none
    | _ => .ok none

/-- The quantity loop of `formatQuantitySets`, accumulating into the set's
mapping (duplicate names overwrite via `setKey`). -/
def processQuantities : List JValue → QSet → Except Unit QSet
  | [], acc => .ok acc
  | q :: rest, acc =>
    match processQuantity q with
    | .error e => .error e
    | .ok (some (n, e)) => processQuantities rest (setKey acc n e)
    | .ok none => processQuantities rest acc

/-- The per-record body of the outer loop of `formatQuantitySets`
(main.ts:452-511): `.ok none` means the record is skipped (not an object,
not tagged `IfcElementQuantity`, no truthy string extracted `Name`, no
`Quantities` array, or no surviving quantity), `.ok (some (name, qs))`
means `result[name] = qs`. -/
def quantityPsetOf (pset : JValue) : Except Unit (Option (String × QSet)) :=
  if ¬ (truthy pset && jsTypeofObject pset) then .ok none
  else
    match jsGet pset "type" with
    | .vStr t =>
      if t = "IfcElementQuantity" then
        match extractValue (jsGet pset "Name") with
        | .vStr s =>
          if s = "" then .ok none
          else
            match jsGet pset "Quantities" with
            | .vArr qs =>
              match processQuantities qs [] with
              | .error e => .error e
              | .ok quantities =>
                if quantities.isEmpty then .ok none
                else .ok (some (s, quantities))
            | _ => .ok none
        | _ => .ok none
      else .ok none
    | _ => .ok none

/-- The outer loop of `formatQuantitySets`. -/
def formatQuantitySetsAux : List JValue → QSets → Except Unit QSets
  | [], result => .ok result
  | pset :: rest, result =>
    match quantityPsetOf pset with
    | .error e => .error e
    | .ok none => formatQuantitySetsAux rest result
    | .ok (some (s, quantities)) => formatQuantitySetsAux rest (setKey result s quantities)

/-- The formatter `formatQuantitySets` (main.ts:449-514). -/
def formatQuantitySets (rawPsets : List JValue) : Except Unit QSets :=
  formatQuantitySetsAux rawPsets []

/-- A property set mapping: property name to extracted value. -/
abbrev PropSet := List (String × JValue)

/-- The six structural exclusion keys of `formatPropertySets`
(main.ts:549). -/
def structuralKeys : List String :=
  ["Name", "type", "HasProperties", "GlobalId", "OwnerHistory", "Description"]

/-- The `HasProperties` loop of `formatPropertySets` (main.ts:534-545):
sub-record name and nominal value are extracted; the entry is kept when the
name is a truthy string and the value is neither `undefined` nor `null`. -/
def propsFromHasProperties : List JValue → PropSet → PropSet
  | [], acc => acc
  | p :: rest, acc =>
    if ¬ (truthy p && jsTypeofObject p) then propsFromHasProperties rest acc
    else
      match extractValue (jsGet p "Name") with
      | .vStr s =>
        if s = "" then propsFromHasProperties rest acc
        else
          match extractValue (jsGet p "NominalValue") with
          | .vNull => propsFromHasProperties rest acc
          | .vUndefined => propsFromHasProperties rest acc
          | pv => propsFromHasProperties rest (setKey acc s pv)
      | _ => propsFromHasProperties rest acc

/-- The direct-field loop of `formatPropertySets` (main.ts:548-554): every
top-level field not among the structural keys whose extracted value is
non-null and not of JS type "object" is merged in. -/
def propsFromDirectFields : List (String × JValue) → PropSet → PropSet
  | [], acc => acc
  | (k, v) :: rest, acc =>
    if structuralKeys.contains k then propsFromDirectFields rest acc
    else
      match extractValue v with
      | .vNull => propsFromDirectFields rest acc
      | .vObj _ => propsFromDirectFields rest acc
      | .vArr _ => propsFromDirectFields rest acc
      | e => propsFromDirectFields rest (setKey acc k e)

/-- The `HasProperties` field of a set record when it is an array (the
source checks truthiness plus `Array.isArray`), else `[]`. -/
def hasPropsList (pset : JValue) : List JValue :=
  match jsGet pset "HasProperties" with
  | .vArr l => l
  | _ => []

/-- The merged property mapping built for one set record: first the
`HasProperties` encoding, then the direct fields (main.ts:531-554). -/
def psetProps (pset : JValue) : PropSet :=
  propsFromDirectFields (objFields pset) (propsFromHasProperties (hasPropsList pset) [])

/-- The set-name resolution of `formatPropertySets` (main.ts:528): extracted
`Name`, falling back on the `type` tag, falling back on `"PropertySet"`;
the record is skipped when the result is not a string. -/
def psetNameOf (pset : JValue) : JValue :=
  let n1 := extractValue (jsGet pset "Name")
  if truthy n1 then n1
  else if truthy (jsGet pset "type") then jsGet pset "type"
  else .vStr "PropertySet"

/-- The per-record body of the outer loop of `formatPropertySets`
(main.ts:520-559): `none` means the record is skipped (not an object,
tagged `IfcElementQuantity`, non-string resolved name, or empty merged
mapping), `some (name, props)` means `result[name] = props`. -/
def propertyPsetOf (pset : JValue) : Option (String × PropSet) :=
  if ¬ (truthy pset && jsTypeofObject pset) then none
  else
    match jsGet pset "type" with
    | .vStr t =>
      if t = "IfcElementQuantity" then none
      else
        match psetNameOf pset with
        | .vStr s =>
          let props := psetProps pset
          if props.isEmpty then none else some (s, props)
        | _ => none
    | _ =>
      match psetNameOf pset with
      | .vStr s =>
        let props := psetProps pset
        if props.isEmpty then none else some (s, props)
      | _ => none

/-- The outer loop of `formatPropertySets`. -/
def formatPropertySetsAux : List JValue → List (String × PropSet) → List (String × PropSet)
  | [], result => result
  | pset :: rest, result =>
    match propertyPsetOf pset with
    | none => formatPropertySetsAux rest result
    | some (s, props) => formatPropertySetsAux rest (setKey result s props)

/-- The formatter `formatPropertySets` (main.ts:517-562). -/
def formatPropertySets (rawPsets : List JValue) : List (String × PropSet) :=
  formatPropertySetsAux rawPsets []

/-- The fixed exclusion list of the direct-attribute loop (main.ts:650-651):
relation roles, representation/placement, ownership history and the `type`
kind tag. -/
def skipKeys : List String :=
  ["IsDefinedBy", "IsTypedBy", "ContainedInStructure", "HasAssociations",
   "Representation", "ObjectPlacement", "OwnerHistory", "type"]

/-- The direct-attribute loop of `updatePropertiesPanel` (main.ts:649-659):
every top-level field whose key is not in `skipKeys`, whose raw value is
neither `null` nor `undefined`, and whose extracted value is non-null. -/
def directAttribLoop : List (String × JValue) → PropSet → PropSet
  | [], acc => acc
  | (k, v) :: rest, acc =>
    if skipKeys.contains k then directAttribLoop rest acc
    else
      match v with
      | .vNull => directAttribLoop rest acc
      | .vUndefined => directAttribLoop rest acc
      | v' =>
        match extractValue v' with
        | .vNull => directAttribLoop rest acc
        | e => directAttribLoop rest (setKey acc k e)

/-- The mapping `directAttributes` as computed for one element's raw field list. -/
def directAttributesOf (fields : List (String × JValue)) : PropSet :=
  directAttribLoop fields []

/-- The skip list of the type-properties loop (main.ts:673). -/
def typeSkipKeys : List String :=
  ["Name", "type", "GlobalId", "OwnerHistory", "Description", "HasPropertySets"]

/-- The direct type-property merge of one `IsTypedBy` record
(main.ts:672-678). -/
def typePropsDirect : List (String × JValue) → PropSet → PropSet
  | [], tp => tp
  | (k, v) :: rest, tp =>
    if typeSkipKeys.contains k then typePropsDirect rest tp
    else
      match extractValue v with
      | .vNull => typePropsDirect rest tp
      | .vObj _ => typePropsDirect rest tp
      | .vArr _ => typePropsDirect rest tp
      | e => typePropsDirect rest (setKey tp k e)

/-- Model of `Object.entries(props).map(([k, v]) => ...).join(", ")` used to flatten
a type-level property set into one string (main.ts:683). -/
def joinProps (props : PropSet) : String :=
  String.intercalate ", " (props.map fun p => p.1 ++ ": " ++ jstr p.2)

/-- The `IsTypedBy` loop (main.ts:665-687): a `TypeError` is raised (and
propagated to the outer per-element catch) when a relation entry is `null`
or `undefined`, because `relObj.Name` is read unguarded; otherwise the
record's truthy extracted `Name` overwrites the running type label, its
non-structural scalar fields are merged into the type-property mapping, and
its `HasPropertySets` array is flattened under bracketed keys. -/
def typedByLoop : List JValue → String → PropSet → Except Unit (String × PropSet)
  | [], info, tp => .ok (info, tp)
  | rel :: rest, info, tp =>
    match jsGetE rel "Name" with
    | .error e => .error e
    | .ok nmField =>
      let typeName := extractValue nmField
      let info' := if truthy typeName then jstr typeName else info
      let tp' := typePropsDirect (objFields rel) tp
      let tp'' :=
        match jsGet rel "HasPropertySets" with
        | .vArr l =>
          (formatPropertySets l).foldl
            (fun acc p => setKey acc ("[" ++ p.1 ++ "]") (.vStr (joinProps p.2))) tp'
        | _ => tp'
      typedByLoop rest info' tp''

/-- The `ContainedInStructure` loop (main.ts:691-700): first truthy
extracted name wins (the loop breaks); a `null`/`undefined` entry raises. -/
def containedLoop : List JValue → Except Unit String
  | [] => .ok ""
  | rel :: rest => do
    let nmField ← jsGetE rel "Name"
    let containerName := extractValue nmField
    if truthy containerName then .ok (jstr containerName) else containedLoop rest

/-- The `HasAssociations` loop (main.ts:704-712): collect the truthy
extracted names of records tagged `IfcRelAssociatesMaterial`, in order. -/
def assocLoop : List JValue → List String → Except Unit (List String)
  | [], acc => .ok acc
  | assoc :: rest, acc => do
    let t ← jsGetE assoc "type"
    match t with
    | .vStr tag =>
      if tag = "IfcRelAssociatesMaterial" then
        let matName := extractValue (jsGet assoc "Name")
        if truthy matName then assocLoop rest (acc ++ [jstr matName])
        else assocLoop rest acc
      else assocLoop rest acc
    | _ => assocLoop rest acc

/-- The normalized per-element view model assembled by
`updatePropertiesPanel` before serialization (identity block, direct
attributes, type block, location, materials and the two formatter
outputs). -/
structure ElementVM : Type where
  localId : Nat
  name : String
  globalId : JValue
  objectType : JValue
  description : JValue
  tag : JValue
  predefinedType : JValue
  longName : JValue
  directAttributes : PropSet
  typeInfo : String
  typeProperties : PropSet
  spatialContainer : String
  materialNames : List String
  propertySets : List (String × PropSet)
  quantitySets : QSets

/-- The per-element body of `updatePropertiesPanel` (main.ts:585-913).
`fetchResult` is the outcome of the guarded `getItemsData` call: `.error ()`
when the fetch raised (the inner catch at main.ts:628 swallows it and leaves
`dataObj` empty, which is then replaced by `{type: "Unknown"}`), `.ok v`
when it returned `itemsData[0] = v`.  The remaining body runs inside the
outer try (main.ts:585): any `TypeError` from the unguarded relation loops
or `formatQuantitySets` is modelled by the `Except` error and makes the
element be skipped by `updatePropertiesPanelBatch`. -/
def processElement (localId : Nat) (fetchResult : Except Unit JValue) :
    Except Unit ElementVM := do
  let fields0 : List (String × JValue) :=
    match fetchResult with
    | .ok v => if truthy v then objFields v else []
    | .error _ => []
  let fields := if fields0.isEmpty then [("type", JValue.vStr "Unknown")] else fields0
  let d := JValue.vObj fields
  let nameV := extractValue (jsGet d "Name")
  let name :=
    if truthy nameV then jstr nameV
    else if truthy (jsGet d "type") then jstr (jsGet d "type")
    else "Element " ++ toString localId
  let globalId := extractValue (jsGet d "GlobalId")
  let objectType := extractValue (jsGet d "ObjectType")
  let description := extractValue (jsGet d "Description")
  let tag := extractValue (jsGet d "Tag")
  let predefinedType := extractValue (jsGet d "PredefinedType")
  let longName := extractValue (jsGet d "LongName")
  let directAttributes := directAttributesOf fields
  let typeBlock ←
    match jsGet d "IsTypedBy" with
    | .vArr rels => typedByLoop rels "" []
    | _ => .ok ("", [])
  let spatialContainer ←
    match jsGet d "ContainedInStructure" with
    | .vArr rels => containedLoop rels
    | _ => .ok ""
  let materialNames ←
    match jsGet d "HasAssociations" with
    | .vArr l => assocLoop l []
    | _ => .ok []
  let propertySets :=
    match jsGet d "IsDefinedBy" with
    | .vArr l => formatPropertySets l
    | _ => []
  let quantitySets ←
    match jsGet d "IsDefinedBy" with
    | .vArr l => formatQuantitySets l
    | _ => .ok []
  pure ⟨localId, name, globalId, objectType, description, tag, predefinedType,
    longName, directAttributes, typeBlock.1, typeBlock.2, spatialContainer,
    materialNames, propertySets, quantitySets⟩

/-- The selection batch loop of `updatePropertiesPanel` (main.ts:584-915):
each element's card is pushed to `propsHtml` when its body completes; a body
that raises is caught at main.ts:911 (logged) and contributes nothing. -/
def updatePropertiesPanelBatch : List (Nat × Except Unit JValue) → List ElementVM
  | [] => []
  | e :: rest =>
    match processElement e.1 e.2 with
    | .ok vm => vm :: updatePropertiesPanelBatch rest
    | .error _ => updatePropertiesPanelBatch rest

/-- The commit at main.ts:917: `propsContainer.innerHTML` is assigned
unconditionally from the finished batch; the previous content is discarded
and no generation token is consulted. -/
def commitPanel (_previous : List ElementVM) (rendered : List ElementVM) :
    List ElementVM :=
  rendered

/-- Cooperative event-loop semantics of overlapping `updatePropertiesPanel`
invocations: each async invocation suspends at its fetches and performs its
single unconditional commit when it resumes last; `completions` lists the
batches in the order in which their commits execute. -/
def runPanelCommits (p0 : List ElementVM)
    (completions : List (List (Nat × Except Unit JValue))) : List ElementVM :=
  completions.foldl (fun p b => commitPanel p (updatePropertiesPanelBatch b)) p0

/-- A fragment material as touched by the ghost-mode engine.  `customId` is
the truthiness of `material.userData.customId` (the opt-out marker);
`hasColor` distinguishes the two structural shapes (`"color" in material`
vs. the LOD shape with `lodColor`); both hex slots are carried so that the
untouched one is observable. -/
structure BIMMaterial : Type where
  customId : Bool
  hasColor : Bool
  color : Nat
  lodColor : Nat
  transparent : Bool
  opacity : Rat
  needsUpdate : Bool
deriving DecidableEq

/-- One entry of the `originalColors` map (main.ts:172-175). -/
structure Snapshot : Type where
  color : Nat
  transparent : Bool
  opacity : Rat
deriving DecidableEq

/-- The module-level mutable state of the ghost-mode engine: the material
list of `fragments.core.models.materials` (materials identified by their
position, standing in for JS object identity), the `originalColors` map
keyed by that identity, and the `ghostModeEnabled` flag. -/
structure GhostState : Type where
  materials : List BIMMaterial
  originalColors : List (Nat × Snapshot)
  ghostModeEnabled : Bool

/-- Read of `material.color.getHex()` resp. `material.lodColor.getHex()` depending
on the structural shape (main.ts:183-188). -/
def readColorHex (m : BIMMaterial) : Nat :=
  if m.hasColor then m.color else m.lodColor

/-- Write through the shape-selected color slot (`setColorName`/`setHex`
target the same slot that `getHex` read). -/
def writeColorHex (m : BIMMaterial) (c : Nat) : BIMMaterial :=
  if m.hasColor then { m with color := c } else { m with lodColor := c }

/-- Hex of the CSS color name `"white"` (main.ts:198,200). -/
def whiteHex : Nat := 0xffffff

/-- The snapshot recorded for one material (main.ts:189-193). -/
def snapshotOf (m : BIMMaterial) : Snapshot :=
  ⟨readColorHex m, m.transparent, m.opacity⟩

/-- The mutation applied to one snapshotted material (main.ts:194-201). -/
def ghostMaterial (m : BIMMaterial) : BIMMaterial :=
  writeColorHex { m with transparent := true, opacity := 1/10, needsUpdate := true } whiteHex

/-- The restoration applied to one material from its snapshot
(main.ts:208-215). -/
def restoreMaterial (m : BIMMaterial) (d : Snapshot) : BIMMaterial :=
  writeColorHex
    { m with transparent := d.transparent, opacity := d.opacity, needsUpdate := true }
    d.color

/-- The snapshot side of the activation loop (main.ts:181-202), walking the
materials in list order with their identity index: opted-out materials are
skipped, the others are written into `originalColors` (`Map.set`
semantics). -/
def snapshotMaterials : Nat → List BIMMaterial → List (Nat × Snapshot) → List (Nat × Snapshot)
  | _, [], oc => oc
  | i, m :: rest, oc =>
    if m.customId then snapshotMaterials (i + 1) rest oc
    else snapshotMaterials (i + 1) rest (setKey oc i (snapshotOf m))

/-- Activation `setModelTransparent` (main.ts:179-204).  The source interleaves the
snapshot write and the mutation per material; since each iteration touches
exactly one material and one map key, the interleaving equals this
snapshot-then-mutate split. -/
def setModelTransparent (s : GhostState) : GhostState :=
  { materials := s.materials.map fun m => if m.customId then m else ghostMaterial m,
    originalColors := snapshotMaterials 0 s.materials s.originalColors,
    ghostModeEnabled := true }

/-- The restoration loop of `restoreModelMaterials` (main.ts:207-216):
iterating the `Map` entries and mutating each referenced material is
modelled by looking each material's identity up in the map, which is
faithful because `Map` keys are unique. -/
def restoreMaterialsList : Nat → List BIMMaterial → List (Nat × Snapshot) → List BIMMaterial
  | _, [], _ => []
  | i, m :: rest, oc =>
    (match lookupKey oc i with
     | some d => restoreMaterial m d
     | none => m) :: restoreMaterialsList (i + 1) rest oc

/-- Deactivation `restoreModelMaterials` (main.ts:206-219). -/
def restoreModelMaterials (s : GhostState) : GhostState :=
  { materials := restoreMaterialsList 0 s.materials s.originalColors,
    originalColors := [],
    ghostModeEnabled := false }

/-! ### Association-list lemmas -/

theorem lookupKey_setKey_self {α β : Type} [DecidableEq α]
    (l : List (α × β)) (k : α) (v : β) : lookupKey (setKey l k v) k = some v := by
  induction l with
  | nil => simp [setKey, lookupKey]
  | cons hd tl ih =>
    obtain ⟨k', v'⟩ := hd
    by_cases h : k' = k <;> simp [setKey, lookupKey, h, ih]

theorem lookupKey_setKey_ne {α β : Type} [DecidableEq α]
    (l : List (α × β)) (k k' : α) (v : β) (h : k' ≠ k) :
    lookupKey (setKey l k v) k' = lookupKey l k' := by
  induction l with
  | nil =>
    simp only [setKey, lookupKey]
    rw [if_neg fun hh => h hh.symm]
  | cons hd tl ih =>
    obtain ⟨k'', v''⟩ := hd
    by_cases h2 : k'' = k
    · simp only [setKey, if_pos h2, lookupKey]
      rw [if_neg fun hh : k = k' => h hh.symm,
        if_neg fun hh : k'' = k' => h (hh.symm.trans h2)]
    · simp only [setKey, if_neg h2, lookupKey, ih]

theorem mem_setKey {α β : Type} [DecidableEq α]
    {l : List (α × β)} {k : α} {v : β} {p : α × β} :
    p ∈ setKey l k v → p = (k, v) ∨ p ∈ l := by
  induction l with
  | nil => intro h; simpa [setKey] using h
  | cons hd tl ih =>
    intro h
    obtain ⟨k', v'⟩ := hd
    by_cases h2 : k' = k
    · simp only [setKey, if_pos h2, List.mem_cons] at h
      rcases h with h | h
      · exact Or.inl h
      · exact Or.inr (List.mem_cons_of_mem _ h)
    · simp only [setKey, if_neg h2, List.mem_cons] at h
      rcases h with h | h
      · exact Or.inr (List.mem_cons.mpr (Or.inl h))
      · rcases ih h with h3 | h3
        · exact Or.inl h3
        · exact Or.inr (List.mem_cons_of_mem _ h3)

theorem mem_setKey_self {α β : Type} [DecidableEq α]
    (l : List (α × β)) (k : α) (v : β) : (k, v) ∈ setKey l k v := by
  induction l with
  | nil => simp [setKey]
  | cons hd tl ih =>
    obtain ⟨k', v'⟩ := hd
    by_cases h : k' = k <;> simp [setKey, h, ih]

theorem mem_setKey_preserve {α β : Type} [DecidableEq α]
    {l : List (α × β)} {p : α × β} (k : α) (v : β)
    (hk : p.1 ≠ k) (h : p ∈ l) : p ∈ setKey l k v := by
  induction h with
  | head as =>
    obtain ⟨k1, v1⟩ := p
    simp only [setKey, if_neg hk]
    exact List.mem_cons_self _ _
  | tail b hmem ih =>
    obtain ⟨k2, v2⟩ := b
    by_cases h3 : k2 = k
    · simp only [setKey, if_pos h3]
      exact List.mem_cons_of_mem _ hmem
    · simp only [setKey, if_neg h3]
      exact List.mem_cons_of_mem _ ih

/-! ### C1: `extractValue` on scalars -/

/-- C1 counterexample: the bare scalar `0` is falsy, so `extractValue`
returns `null` rather than `0`; consequently extraction is not idempotent on
already-extracted scalars, since the wrapped value `{value: 0}` extracts to
`0` whose re-extraction is `null`. -/
theorem extractValue_scalar_cex :
    extractValue (.vNum 0) = .vNull ∧
    JValue.vNull ≠ JValue.vNum 0 ∧
    extractValue (.vObj [("value", .vNum 0)]) = .vNum 0 ∧
    extractValue (extractValue (.vObj [("value", .vNum 0)])) ≠
      extractValue (.vObj [("value", .vNum 0)]) := by
  refine ⟨rfl, fun h => JValue.noConfusion h, rfl, fun h => ?_⟩
  rw [show extractValue (.vObj [("value", .vNum 0)]) = .vNum 0 from rfl,
    show extractValue (.vNum 0) = .vNull from rfl] at h
  exact JValue.noConfusion h

/-- C1 (amended): `extractValue` returns a bare scalar unchanged exactly
when the scalar is truthy (and is then idempotent on it); a falsy scalar
(`0`, `""`, `false`) is mapped to `null`, and `null` is a fixed point. -/
theorem extractValue_truthy_scalar_id (a : JValue) (hs : isScalar a = true) :
    (truthy a = true →
      extractValue a = a ∧ extractValue (extractValue a) = extractValue a) ∧
    (truthy a = false → extractValue a = .vNull) ∧
    extractValue .vNull = .vNull := by
  cases a <;> simp_all [isScalar, extractValue, truthy]

/-- Witness for C1 (amended) at the truthy scalar `"x"`. -/
theorem extractValue_truthy_scalar_id_witness :
    extractValue (.vStr "x") = .vStr "x" :=
  ((extractValue_truthy_scalar_id (.vStr "x") (by decide)).1 (by decide)).1

/-! ### C2: ghost-mode round trip -/

theorem lookupKey_snapshotMaterials_lower (mats : List BIMMaterial) :
    ∀ (j k : Nat) (oc : List (Nat × Snapshot)), k < j →
    lookupKey (snapshotMaterials j mats oc) k = lookupKey oc k := by
  induction mats with
  | nil => intro j k oc _; rfl
  | cons m rest ih =>
    intro j k oc hk
    by_cases hc : m.customId
    · simp only [snapshotMaterials, if_pos hc]
      exact ih (j + 1) k oc (Nat.lt_succ_of_lt hk)
    · simp only [snapshotMaterials, if_neg hc]
      rw [ih (j + 1) k _ (Nat.lt_succ_of_lt hk)]
      exact lookupKey_setKey_ne oc j k (snapshotOf m) (Nat.ne_of_lt hk)

theorem lookupKey_snapshotMaterials_custom (mats : List BIMMaterial) :
    ∀ (idx j : Nat) (oc : List (Nat × Snapshot)) (h : idx < mats.length),
    (mats.get ⟨idx, h⟩).customId = true →
    lookupKey (snapshotMaterials j mats oc) (j + idx) = lookupKey oc (j + idx) := by
  induction mats with
  | nil => intro idx j oc h; simp at h
  | cons m rest ih =>
    intro idx j oc h hc
    cases idx with
    | zero =>
      have hm : m.customId = true := hc
      simp only [snapshotMaterials, if_pos hm, Nat.add_zero]
      exact lookupKey_snapshotMaterials_lower rest (j + 1) j oc (Nat.lt_succ_self j)
    | succ n =>
      have hlt : n < rest.length := Nat.lt_of_succ_lt_succ h
      have hc' : (rest.get ⟨n, hlt⟩).customId = true := hc
      have e : j + (n + 1) = (j + 1) + n := by omega
      by_cases hm : m.customId
      · simp only [snapshotMaterials, if_pos hm]
        rw [e]
        exact ih n (j + 1) oc hlt hc'
      · simp only [snapshotMaterials, if_neg hm]
        rw [e, ih n (j + 1) (setKey oc j (snapshotOf m)) hlt hc']
        exact lookupKey_setKey_ne oc j ((j + 1) + n) (snapshotOf m) (by omega)

theorem restore_ghost_cancel (m : BIMMaterial) :
    restoreMaterial (ghostMaterial m) (snapshotOf m) = { m with needsUpdate := true } := by
  by_cases h : m.hasColor <;>
    simp [restoreMaterial, ghostMaterial, snapshotOf, writeColorHex, readColorHex, h]

theorem restore_after_snapshot (mats : List BIMMaterial) :
    ∀ (i : Nat) (oc : List (Nat × Snapshot)),
    (∀ j, i ≤ j → lookupKey oc j = none) →
    restoreMaterialsList i (mats.map fun m => if m.customId then m else ghostMaterial m)
        (snapshotMaterials i mats oc) =
      mats.map fun m => if m.customId then m else { m with needsUpdate := true } := by
  induction mats with
  | nil => intro i oc _; rfl
  | cons m rest ih =>
    intro i oc h
    by_cases hc : m.customId
    · simp only [List.map_cons, if_pos hc, snapshotMaterials, restoreMaterialsList]
      rw [lookupKey_snapshotMaterials_lower rest (i + 1) i oc (Nat.lt_succ_self i),
        h i (Nat.le_refl i)]
      exact congrArg (m :: ·) (ih (i + 1) oc fun j hj => h j (Nat.le_of_succ_le hj))
    · simp only [List.map_cons, if_neg hc, snapshotMaterials, restoreMaterialsList]
      rw [lookupKey_snapshotMaterials_lower rest (i + 1) i _ (Nat.lt_succ_self i),
        lookupKey_setKey_self oc i (snapshotOf m)]
      refine congrArg₂ (· :: ·) (restore_ghost_cancel m) ?_
      refine ih (i + 1) (setKey oc i (snapshotOf m)) fun j hj => ?_
      rw [lookupKey_setKey_ne oc i j (snapshotOf m) (by omega), h j (by omega)]

/-- C2: starting from any NORMAL state (empty snapshot map), activating
ghost mode and immediately deactivating it restores every material without
the opt-out marker to exactly its prior color, transparency and opacity
(only `needsUpdate` is left set), while a material whose `userData.customId`
is truthy is neither snapshotted nor mutated by either transition. -/
theorem ghost_roundtrip_restores (mats : List BIMMaterial) (i : Nat) (h1 : i < mats.length) :
    (mats[i].customId = false →
      (restoreModelMaterials (setModelTransparent ⟨mats, [], false⟩)).materials[i]? =
        some { mats[i] with needsUpdate := true }) ∧
    (mats[i].customId = true →
      (setModelTransparent ⟨mats, [], false⟩).materials[i]? = some mats[i] ∧
      (restoreModelMaterials (setModelTransparent ⟨mats, [], false⟩)).materials[i]? =
        some mats[i] ∧
      lookupKey (setModelTransparent ⟨mats, [], false⟩).originalColors i = none) := by
  have hmats : (restoreModelMaterials (setModelTransparent ⟨mats, [], false⟩)).materials =
      mats.map fun m => if m.customId then m else { m with needsUpdate := true } := by
    show restoreMaterialsList 0
        (mats.map fun m => if m.customId then m else ghostMaterial m)
        (snapshotMaterials 0 mats []) = _
    exact restore_after_snapshot mats 0 [] fun j _ => rfl
  have hget : mats[i]? = some mats[i] := List.getElem?_eq_getElem h1
  constructor
  · intro hc
    rw [hmats, List.getElem?_map, hget]
    simp [hc]
  · intro hc
    refine ⟨?_, ?_, ?_⟩
    · show (mats.map fun m => if m.customId then m else ghostMaterial m)[i]? = _
      rw [List.getElem?_map, hget]
      simp [hc]
    · rw [hmats, List.getElem?_map, hget]
      simp [hc]
    · show lookupKey (snapshotMaterials 0 mats []) i = none
      have := lookupKey_snapshotMaterials_custom mats i 0 [] h1 hc
      rw [Nat.zero_add] at this
      rw [this]
      rfl

/-- Witness for C2 at a two-material state: `matA` (plain, solid-color
shape) is restored exactly, `matB` (opt-out, LOD shape) is untouched. -/
theorem ghost_roundtrip_restores_witness :
    (restoreModelMaterials (setModelTransparent ⟨[⟨false, true, 0x123456, 5, false, 1, false⟩,
        ⟨true, false, 7, 0xabcdef, true, 1/2, false⟩], [], false⟩)).materials[0]? =
      some ⟨false, true, 0x123456, 5, false, 1, true⟩ ∧
    (restoreModelMaterials (setModelTransparent ⟨[⟨false, true, 0x123456, 5, false, 1, false⟩,
        ⟨true, false, 7, 0xabcdef, true, 1/2, false⟩], [], false⟩)).materials[1]? =
      some ⟨true, false, 7, 0xabcdef, true, 1/2, false⟩ :=
  ⟨(ghost_roundtrip_restores [⟨false, true, 0x123456, 5, false, 1, false⟩,
      ⟨true, false, 7, 0xabcdef, true, 1/2, false⟩] 0 (by decide)).1 (by decide),
   ((ghost_roundtrip_restores [⟨false, true, 0x123456, 5, false, 1, false⟩,
      ⟨true, false, 7, 0xabcdef, true, 1/2, false⟩] 1 (by decide)).2 (by decide)).2.1⟩

/-! ### C3: quantity formatter output invariants -/

theorem probe_unit (q : JValue) (p : JValue × String) (h : probeQuantityValue q = some p) :
    p.2 = "m" ∨ p.2 = "m²" ∨ p.2 = "m³" ∨ p.2 = "kg" ∨ p.2 = "ud" ∨ p.2 = "s" := by
  simp only [probeQuantityValue] at h
  split_ifs at h <;> first
    | (cases Option.some.inj h; simp)
    | simp at h

theorem processQuantity_emit (q : JValue) (n : String) (e : Quantity)
    (h : processQuantity q = .ok (some (n, e))) :
    probeQuantityValue q = some (.vNum e.value, e.unit) := by
  unfold processQuantity at h
  repeat' split at h
  all_goals try simp_all
  obtain ⟨h1, h2⟩ := h
  cases h2
  exact ⟨rfl, rfl⟩

theorem processQuantity_unit (q : JValue) (p : String × Quantity)
    (h : processQuantity q = .ok (some p)) :
    p.2.unit = "m" ∨ p.2.unit = "m²" ∨ p.2.unit = "m³" ∨
    p.2.unit = "kg" ∨ p.2.unit = "ud" ∨ p.2.unit = "s" := by
  have h2 := processQuantity_emit q p.1 p.2 h
  simpa using probe_unit q (.vNum p.2.value, p.2.unit) h2

theorem isEmpty_false_ne_nil {α : Type} {l : List α} (h : l.isEmpty = false) : l ≠ [] := by
  cases l <;> simp_all

theorem processQuantities_mem (qs : List JValue) :
    ∀ (acc res : QSet), processQuantities qs acc = .ok res →
    ∀ p : String × Quantity, p ∈ res →
      p ∈ acc ∨ ∃ q, q ∈ qs ∧ processQuantity q = .ok (some p) := by
  induction qs with
  | nil =>
    intro acc res h p hp
    unfold processQuantities at h
    cases Except.ok.inj h
    exact Or.inl hp
  | cons q rest ih =>
    intro acc res h p hp
    unfold processQuantities at h
    cases hq : processQuantity q with
    | error e => rw [hq] at h; simp at h
    | ok r =>
      rw [hq] at h
      cases r with
      | none =>
        rcases ih acc res h p hp with h2 | ⟨q', hq1, hq2⟩
        · exact Or.inl h2
        · exact Or.inr ⟨q', List.mem_cons_of_mem _ hq1, hq2⟩
      | some pr =>
        obtain ⟨n, e⟩ := pr
        rcases ih (setKey acc n e) res h p hp with h2 | ⟨q', hq1, hq2⟩
        · rcases mem_setKey h2 with h3 | h3
          · refine Or.inr ⟨q, List.mem_cons_self _ _, ?_⟩
            rw [hq, h3]
          · exact Or.inl h3
        · exact Or.inr ⟨q', List.mem_cons_of_mem _ hq1, hq2⟩

theorem quantityPsetOf_emit (pset : JValue) (s : String) (qs : QSet)
    (h : quantityPsetOf pset = .ok (some (s, qs))) :
    qs ≠ [] ∧ ∀ p : String × Quantity, p ∈ qs →
      p.2.unit = "m" ∨ p.2.unit = "m²" ∨ p.2.unit = "m³" ∨
      p.2.unit = "kg" ∨ p.2.unit = "ud" ∨ p.2.unit = "s" := by
  unfold quantityPsetOf at h
  repeat' split at h
  all_goals try simp_all
  rename_i hpq hne
  intro a b hab
  rcases processQuantities_mem _ [] qs hpq (a, b) hab with h2 | ⟨q', _, hq2⟩
  · simp at h2
  · simpa using processQuantity_unit q' (a, b) hq2

theorem formatQuantitySetsAux_mem (raw : List JValue) :
    ∀ (res0 r : QSets), formatQuantitySetsAux raw res0 = .ok r →
    ∀ sp : String × QSet, sp ∈ r →
      sp ∈ res0 ∨ ∃ pset, pset ∈ raw ∧ quantityPsetOf pset = .ok (some sp) := by
  induction raw with
  | nil =>
    intro res0 r h sp hsp
    unfold formatQuantitySetsAux at h
    cases Except.ok.inj h
    exact Or.inl hsp
  | cons pset rest ih =>
    intro res0 r h sp hsp
    unfold formatQuantitySetsAux at h
    cases hq : quantityPsetOf pset with
    | error e => rw [hq] at h; simp at h
    | ok ro =>
      rw [hq] at h
      cases ro with
      | none =>
        rcases ih res0 r h sp hsp with h2 | ⟨p', hp1, hp2⟩
        · exact Or.inl h2
        · exact Or.inr ⟨p', List.mem_cons_of_mem _ hp1, hp2⟩
      | some pr =>
        obtain ⟨n, e⟩ := pr
        rcases ih (setKey res0 n e) r h sp hsp with h2 | ⟨p', hp1, hp2⟩
        · rcases mem_setKey h2 with h3 | h3
          · refine Or.inr ⟨pset, List.mem_cons_self _ _, ?_⟩
            rw [hq, h3]
          · exact Or.inl h3
        · exact Or.inr ⟨p', List.mem_cons_of_mem _ hp1, hp2⟩

theorem processQuantities_last_wins (pre : List JValue) :
    ∀ (q : JValue) (n : String) (e : Quantity) (acc res : QSet),
    processQuantity q = .ok (some (n, e)) →
    processQuantities (pre ++ [q]) acc = .ok res →
    lookupKey res n = some e := by
  induction pre with
  | nil =>
    intro q n e acc res hq h
    simp only [List.nil_append] at h
    unfold processQuantities at h
    rw [hq] at h
    have h2 : (Except.ok (setKey acc n e) : Except Unit QSet) = Except.ok res := h
    cases Except.ok.inj h2
    exact lookupKey_setKey_self acc n e
  | cons q0 rest ih =>
    intro q n e acc res hq h
    simp only [List.cons_append] at h
    unfold processQuantities at h
    cases hq0 : processQuantity q0 with
    | error e0 => rw [hq0] at h; simp at h
    | ok r0 =>
      rw [hq0] at h
      cases r0 with
      | none => exact ih q n e acc res hq h
      | some pr0 =>
        obtain ⟨n0, e0⟩ := pr0
        exact ih q n e (setKey acc n0 e0) res hq h

/-- C3: whenever `formatQuantitySets` completes, every emitted quantity
carries a populated numeric value (`Quantity.value`, which the emission
guard at main.ts:503 only ever fills from an extracted number) and a unit
drawn from the fixed table or the empty string; a quantity set with zero
surviving quantities is absent; and a duplicate quantity name within one
set resolves to the last occurrence. -/
theorem formatQuantitySets_output_invariants :
    (∀ (raw : List JValue) (r : QSets), formatQuantitySets raw = .ok r →
      ∀ sp : String × QSet, sp ∈ r → sp.2 ≠ [] ∧
        ∀ p : String × Quantity, p ∈ sp.2 →
          p.2.unit = "m" ∨ p.2.unit = "m²" ∨ p.2.unit = "m³" ∨
          p.2.unit = "kg" ∨ p.2.unit = "ud" ∨ p.2.unit = "s" ∨ p.2.unit = "") ∧
    (∀ (pre : List JValue) (q : JValue) (n : String) (e : Quantity) (acc res : QSet),
      processQuantity q = .ok (some (n, e)) →
      processQuantities (pre ++ [q]) acc = .ok res →
      lookupKey res n = some e) := by
  constructor
  · intro raw r h sp hsp
    rcases formatQuantitySetsAux_mem raw [] r h sp hsp with h2 | ⟨pset, _, hp2⟩
    · simp at h2
    · have h3 := quantityPsetOf_emit pset sp.1 sp.2 hp2
      refine ⟨h3.1, fun p hp => ?_⟩
      rcases h3.2 p hp with h4 | h4 | h4 | h4 | h4 | h4 <;> tauto
  · exact processQuantities_last_wins

/-- Concrete quantity records used by the witnesses: two quantities with the
same name inside one `IfcElementQuantity` record. -/
def qWidth2 : JValue := .vObj [("Name", .vStr "Width"), ("LengthValue", .vNum 2)]

def qWidth3 : JValue := .vObj [("Name", .vStr "Width"), ("LengthValue", .vNum 3)]

def qsetSample : JValue :=
  .vObj [("type", .vStr "IfcElementQuantity"), ("Name", .vStr "BaseQuantities"),
    ("Quantities", .vArr [qWidth2, qWidth3])]

/-- Witness for C3 on `qsetSample`: the emitted set is non-empty and the
duplicated name `Width` resolves to the later record's value `3`. -/
theorem formatQuantitySets_output_invariants_witness :
    ([("Width", (⟨3, "m"⟩ : Quantity))] : QSet) ≠ [] ∧
    lookupKey [("Width", (⟨3, "m"⟩ : Quantity))] "Width" = some ⟨3, "m"⟩ :=
  ⟨(formatQuantitySets_output_invariants.1 [qsetSample]
      [("BaseQuantities", [("Width", ⟨3, "m"⟩)])] rfl
      ("BaseQuantities", [("Width", ⟨3, "m"⟩)]) (List.mem_singleton.mpr rfl)).1,
   formatQuantitySets_output_invariants.2 [qWidth2] qWidth3 "Width" ⟨3, "m"⟩ []
      [("Width", ⟨3, "m"⟩)] rfl rfl⟩

/-! ### C9 and C10: value probing and zero/wrapped values -/

theorem probeQuantityValue_eq_table (q : JValue) :
    probeQuantityValue q = probeFirstDefined q := by
  unfold probeQuantityValue probeFirstDefined quantityFieldTable
  by_cases h1 : isDefined q "LengthValue"
  · simp [h1]
  · by_cases h2 : isDefined q "AreaValue"
    · simp [h1, h2]
    · by_cases h3 : isDefined q "VolumeValue"
      · simp [h1, h2, h3]
      · by_cases h4 : isDefined q "WeightValue"
        · simp [h1, h2, h3, h4]
        · by_cases h5 : isDefined q "CountValue"
          · simp [h1, h2, h3, h4, h5]
          · by_cases h6 : isDefined q "TimeValue"
            · simp [h1, h2, h3, h4, h5, h6]
            · simp [h1, h2, h3, h4, h5, h6]

/-- Quantity record with a populated bare `AreaValue` of `12.5`
(`mkRat 25 2`; the scientific-notation literal is avoided because
`Rat.ofScientific` does not reduce). -/
def qArea : JValue :=
  .vObj [("Name", .vStr "GrossArea"), ("AreaValue", .vNum (mkRat 25 2))]

/-- Quantity record with no value field but a declared type whose keywords
would let `getQuantityUnit` infer `"m"`. -/
def qHeight : JValue :=
  .vObj [("Name", .vStr "Height"), ("type", .vStr "Qto_WallBaseQuantities.Height")]

def qsetScenario : JValue :=
  .vObj [("type", .vStr "IfcElementQuantity"), ("Name", .vStr "Qs"),
    ("Quantities", .vArr [qArea, qHeight])]

/-- C9: the six value fields are probed in the fixed order
Length/Area/Volume/Weight/Count/Time with the first defined field winning
(the source if-chain equals the ordered-table probe); a record with
`AreaValue = 12.5` emits `{value: 12.5, unit: "m²"}`; and a record with no
value field but type `"Qto_WallBaseQuantities.Height"` is dropped entirely,
even though `getQuantityUnit` infers `"m"` from that type name. -/
theorem quantity_probe_order_and_scenarios :
    (∀ q : JValue, probeQuantityValue q = probeFirstDefined q) ∧
    formatQuantitySets [qsetScenario] =
      .ok [("Qs", [("GrossArea", ⟨mkRat 25 2, "m²"⟩)])] ∧
    getQuantityUnit "Qto_WallBaseQuantities.Height" = "m" ∧
    processQuantity qHeight = .ok none :=
  ⟨probeQuantityValue_eq_table, rfl, rfl, rfl⟩

/-- Quantity record whose `LengthValue` is present but holds the bare
scalar `0`. -/
def qBare0 : JValue := .vObj [("Name", .vStr "W"), ("LengthValue", .vNum 0)]

/-- Quantity record whose `LengthValue` is a wrapper object with `value`
member `0`. -/
def qWrapped0 : JValue :=
  .vObj [("Name", .vStr "W"), ("LengthValue", .vObj [("value", .vNum 0)])]

def qsetBare0 : JValue :=
  .vObj [("type", .vStr "IfcElementQuantity"), ("Name", .vStr "Qs"),
    ("Quantities", .vArr [qBare0])]

def qsetWrapped0 : JValue :=
  .vObj [("type", .vStr "IfcElementQuantity"), ("Name", .vStr "Qs"),
    ("Quantities", .vArr [qWrapped0])]

/-- C10: a quantity whose selected value field holds the bare scalar `0`
(falsy, so extraction yields null) is dropped — the whole set disappears —
while a wrapper object whose `value` member is `0` is emitted with value
`0`; in general a selected field whose extraction is null is never
emitted. -/
theorem bare_zero_dropped_wrapped_zero_emitted :
    formatQuantitySets [qsetBare0] = .ok [] ∧
    formatQuantitySets [qsetWrapped0] = .ok [("Qs", [("W", ⟨0, "m"⟩)])] ∧
    (∀ (q : JValue) (u : String), probeQuantityValue q = some (.vNull, u) →
      ∀ (n : String) (e : Quantity), processQuantity q ≠ .ok (some (n, e))) := by
  refine ⟨rfl, rfl, ?_⟩
  intro q u hp n e hc
  have h2 := processQuantity_emit q n e hc
  rw [hp] at h2
  exact JValue.noConfusion (congrArg Prod.fst (Option.some.inj h2))

/-- Witness for C10 at `qBare0`. -/
theorem bare_zero_dropped_wrapped_zero_emitted_witness :
    processQuantity qBare0 ≠ .ok (some ("W", ⟨0, "m"⟩)) :=
  bare_zero_dropped_wrapped_zero_emitted.2.2 qBare0 "m" rfl "W" ⟨0, "m"⟩

/-! ### C7: structural keys in property sets -/

/-- Sub-record with extracted name `"Name"`: the `HasProperties` path of
`formatPropertySets` applies no structural-key filter to sub-record
names. -/
def hpNamed : JValue := .vObj [("Name", .vStr "Name"), ("NominalValue", .vStr "x")]

def psetWithStructuralSubName : JValue := .vObj [("HasProperties", .vArr [hpNamed])]

/-- C7 counterexample: a `HasProperties` sub-record whose extracted name is
the structural key `"Name"` makes `formatPropertySets` emit `"Name"` as a
property name — the exclusion list is only applied to the direct-field
path. -/
theorem structural_key_via_hasProperties_cex :
    formatPropertySets [psetWithStructuralSubName] =
      [("PropertySet", [("Name", .vStr "x")])] ∧
    structuralKeys.contains "Name" = true :=
  ⟨rfl, rfl⟩

/-- All `HasProperties` sub-record names of a record avoid the structural
keys (the hypothesis under which the claimed exclusion does hold). -/
def subNamesClean (pset : JValue) : Bool :=
  (hasPropsList pset).all fun p =>
    match extractValue (jsGet p "Name") with
    | .vStr s => !(structuralKeys.contains s)
    | _ => true

theorem exists_name_lift {l : List JValue} {q0 : JValue} {p : String × JValue}
    (h : ∃ q, q ∈ l ∧ extractValue (jsGet q "Name") = .vStr p.1) :
    ∃ q, q ∈ q0 :: l ∧ extractValue (jsGet q "Name") = .vStr p.1 :=
  match h with
  | ⟨q, h1, h2⟩ => ⟨q, List.mem_cons_of_mem _ h1, h2⟩

theorem propsFromDirectFields_mem (fields : List (String × JValue)) :
    ∀ (acc : PropSet) (p : String × JValue), p ∈ propsFromDirectFields fields acc →
    p ∈ acc ∨ structuralKeys.contains p.1 = false := by
  induction fields with
  | nil => intro acc p h; exact Or.inl h
  | cons kv rest ih =>
    intro acc p h
    obtain ⟨k, v⟩ := kv
    unfold propsFromDirectFields at h
    by_cases hsk : structuralKeys.contains k = true
    · rw [if_pos hsk] at h
      exact ih acc p h
    · rw [if_neg hsk] at h
      cases hev : extractValue v <;> rw [hev] at h <;>
        first
        | exact ih acc p h
        | exact (ih _ p h).elim
            (fun h2 => (mem_setKey h2).elim
              (fun h3 => Or.inr (by rw [h3]; simpa using hsk))
              Or.inl)
            Or.inr

theorem propsFromHasProperties_mem (l : List JValue) :
    ∀ (acc : PropSet) (p : String × JValue), p ∈ propsFromHasProperties l acc →
    p ∈ acc ∨ ∃ q, q ∈ l ∧ extractValue (jsGet q "Name") = .vStr p.1 := by
  induction l with
  | nil => intro acc p h; exact Or.inl h
  | cons q rest ih =>
    intro acc p h
    unfold propsFromHasProperties at h
    by_cases hg : (truthy q && jsTypeofObject q) = true
    · rw [if_neg (not_not_intro hg)] at h
      cases hname : extractValue (jsGet q "Name") with
      | vStr s =>
        rw [hname] at h
        dsimp only at h
        by_cases hs : s = ""
        · rw [if_pos hs] at h
          exact (ih acc p h).elim Or.inl fun he => Or.inr (exists_name_lift he)
        · rw [if_neg hs] at h
          cases hnv : extractValue (jsGet q "NominalValue") <;> rw [hnv] at h <;>
            first
            | exact (ih acc p h).elim Or.inl fun he => Or.inr (exists_name_lift he)
            | exact (ih _ p h).elim
                (fun h2 => (mem_setKey h2).elim
                  (fun h3 => Or.inr ⟨q, List.mem_cons_self _ _, by cases h3; exact hname⟩)
                  Or.inl)
                fun he => Or.inr (exists_name_lift he)
      | vNull =>
        rw [hname] at h
        exact (ih acc p h).elim Or.inl fun he => Or.inr (exists_name_lift he)
      | vUndefined =>
        rw [hname] at h
        exact (ih acc p h).elim Or.inl fun he => Or.inr (exists_name_lift he)
      | vNum n =>
        rw [hname] at h
        exact (ih acc p h).elim Or.inl fun he => Or.inr (exists_name_lift he)
      | vBool b =>
        rw [hname] at h
        exact (ih acc p h).elim Or.inl fun he => Or.inr (exists_name_lift he)
      | vObj f =>
        rw [hname] at h
        exact (ih acc p h).elim Or.inl fun he => Or.inr (exists_name_lift he)
      | vArr l2 =>
        rw [hname] at h
        exact (ih acc p h).elim Or.inl fun he => Or.inr (exists_name_lift he)
    · rw [if_pos hg] at h
      exact (ih acc p h).elim Or.inl fun he => Or.inr (exists_name_lift he)

theorem propertyPsetOf_props (pset : JValue) (s : String) (props : PropSet)
    (h : propertyPsetOf pset = some (s, props)) : props = psetProps pset := by
  unfold propertyPsetOf at h
  repeat' split at h
  all_goals simp_all

theorem formatPropertySetsAux_mem (raw : List JValue) :
    ∀ (res0 : List (String × PropSet)) (sp : String × PropSet),
    sp ∈ formatPropertySetsAux raw res0 →
    sp ∈ res0 ∨ ∃ pset, pset ∈ raw ∧ propertyPsetOf pset = some sp := by
  induction raw with
  | nil => intro res0 sp h; exact Or.inl h
  | cons pset rest ih =>
    intro res0 sp h
    unfold formatPropertySetsAux at h
    cases hq : propertyPsetOf pset with
    | none =>
      rw [hq] at h
      rcases ih res0 sp h with h2 | ⟨p', hp1, hp2⟩
      · exact Or.inl h2
      · exact Or.inr ⟨p', List.mem_cons_of_mem _ hp1, hp2⟩
    | some pr =>
      obtain ⟨n, e⟩ := pr
      rw [hq] at h
      rcases ih (setKey res0 n e) sp h with h2 | ⟨p', hp1, hp2⟩
      · rcases mem_setKey h2 with h3 | h3
        · refine Or.inr ⟨pset, List.mem_cons_self _ _, ?_⟩
          rw [hq, h3]
        · exact Or.inl h3
      · exact Or.inr ⟨p', List.mem_cons_of_mem _ hp1, hp2⟩

/-- C7 (amended): the six structural exclusion keys are filtered only on
the direct-field path; provided no `HasProperties` sub-record's extracted
name is itself one of those keys, no structural key appears as a property
name in any emitted property set. -/
theorem structural_keys_absent_when_subnames_clean
    (raw : List JValue) (hclean : ∀ pset ∈ raw, subNamesClean pset = true) :
    ∀ sp : String × PropSet, sp ∈ formatPropertySets raw →
    ∀ p : String × JValue, p ∈ sp.2 → structuralKeys.contains p.1 = false := by
  intro sp hsp p hp
  rcases formatPropertySetsAux_mem raw [] sp hsp with h2 | ⟨pset, hin, hps⟩
  · simp at h2
  · have hprops : sp.2 = psetProps pset := propertyPsetOf_props pset sp.1 sp.2 hps
    rw [hprops] at hp
    unfold psetProps at hp
    rcases propsFromDirectFields_mem (objFields pset) _ p hp with h3 | h3
    · rcases propsFromHasProperties_mem (hasPropsList pset) [] p h3 with h4 | ⟨q, hq1, hq2⟩
      · simp at h4
      · have h5 := (List.all_eq_true.mp (hclean pset hin)) q hq1
        rw [hq2] at h5
        simpa using h5
    · exact h3

/-- A property-set record whose sub-names are clean, used by the C7
witness. -/
def cleanPset : JValue := .vObj [("Name", .vStr "Pset_X"), ("Foo", .vStr "bar")]

/-- Witness for C7 (amended) at `cleanPset`: the emitted property name
`"Foo"` is not a structural key. -/
theorem structural_keys_absent_when_subnames_clean_witness :
    structuralKeys.contains "Foo" = false :=
  structural_keys_absent_when_subnames_clean [cleanPset]
    (by
      intro pset hp
      rw [List.mem_singleton] at hp
      rw [hp]
      rfl)
    ("Pset_X", [("Foo", .vStr "bar")])
    (List.mem_singleton.mpr rfl)
    ("Foo", .vStr "bar")
    (List.mem_singleton.mpr rfl)

/-! ### C8: direct attributes -/

/-- C8 counterexample: identity/descriptive attributes such as `Name` and
`GlobalId` are not in `skipKeys` and therefore do appear in the
direct-attributes mapping. -/
theorem identity_attrs_in_directAttributes_cex :
    directAttributesOf [("Name", .vStr "Wall"), ("GlobalId", .vStr "abc")] =
      [("Name", .vStr "Wall"), ("GlobalId", .vStr "abc")] ∧
    ("Name", JValue.vStr "Wall") ∈
      directAttributesOf [("Name", .vStr "Wall"), ("GlobalId", .vStr "abc")] :=
  ⟨rfl, List.mem_cons_self _ _⟩

theorem directAttribLoop_insert_mem (rest : List (String × JValue)) (acc : PropSet)
    (k : String) (e : JValue) (p : String × JValue)
    (hsk : ¬ skipKeys.contains k = true) (hnn : e ≠ .vNull)
    (h : p ∈ directAttribLoop rest (setKey acc k e))
    (ih : ∀ (acc : PropSet) (p : String × JValue), p ∈ directAttribLoop rest acc →
      p ∈ acc ∨ (skipKeys.contains p.1 = false ∧ p.2 ≠ .vNull)) :
    p ∈ acc ∨ (skipKeys.contains p.1 = false ∧ p.2 ≠ .vNull) := by
  rcases ih _ p h with h2 | h2
  · rcases mem_setKey h2 with h3 | h3
    · rw [h3]
      exact Or.inr ⟨by simpa using hsk, hnn⟩
    · exact Or.inl h3
  · exact Or.inr h2

theorem directAttribLoop_mem (fields : List (String × JValue)) :
    ∀ (acc : PropSet) (p : String × JValue), p ∈ directAttribLoop fields acc →
    p ∈ acc ∨ (skipKeys.contains p.1 = false ∧ p.2 ≠ .vNull) := by
  induction fields with
  | nil => intro acc p h; exact Or.inl h
  | cons kv rest ih =>
    intro acc p h
    obtain ⟨k, v⟩ := kv
    unfold directAttribLoop at h
    by_cases hsk : skipKeys.contains k = true
    · rw [if_pos hsk] at h
      exact ih acc p h
    · rw [if_neg hsk] at h
      cases v with
      | vNull => exact ih acc p h
      | vUndefined => exact ih acc p h
      | vStr s0 =>
        dsimp only at h
        cases hev : extractValue (JValue.vStr s0) <;> rw [hev] at h <;>
          first
          | exact ih acc p h
          | exact directAttribLoop_insert_mem rest acc k _ p hsk
              (fun hh => JValue.noConfusion hh) h ih
      | vNum n0 =>
        dsimp only at h
        cases hev : extractValue (JValue.vNum n0) <;> rw [hev] at h <;>
          first
          | exact ih acc p h
          | exact directAttribLoop_insert_mem rest acc k _ p hsk
              (fun hh => JValue.noConfusion hh) h ih
      | vBool b0 =>
        dsimp only at h
        cases hev : extractValue (JValue.vBool b0) <;> rw [hev] at h <;>
          first
          | exact ih acc p h
          | exact directAttribLoop_insert_mem rest acc k _ p hsk
              (fun hh => JValue.noConfusion hh) h ih
      | vObj f0 =>
        dsimp only at h
        cases hev : extractValue (JValue.vObj f0) <;> rw [hev] at h <;>
          first
          | exact ih acc p h
          | exact directAttribLoop_insert_mem rest acc k _ p hsk
              (fun hh => JValue.noConfusion hh) h ih
      | vArr l0 =>
        dsimp only at h
        cases hev : extractValue (JValue.vArr l0) <;> rw [hev] at h <;>
          first
          | exact ih acc p h
          | exact directAttribLoop_insert_mem rest acc k _ p hsk
              (fun hh => JValue.noConfusion hh) h ih

theorem directAttribLoop_preserve (fields : List (String × JValue)) :
    ∀ (acc : PropSet) (p : String × JValue), p ∈ acc →
    ¬ p.1 ∈ fields.map Prod.fst → p ∈ directAttribLoop fields acc := by
  induction fields with
  | nil => intro acc p hacc _; exact hacc
  | cons kv rest ih =>
    intro acc p hacc hkeys
    obtain ⟨k, v⟩ := kv
    have hne : p.1 ≠ k := by
      intro hh
      exact hkeys (by simp [hh])
    have hrest : ¬ p.1 ∈ rest.map Prod.fst := by
      intro hh
      exact hkeys (by simp [hh])
    unfold directAttribLoop
    by_cases hsk : skipKeys.contains k = true
    · rw [if_pos hsk]
      exact ih acc p hacc hrest
    · rw [if_neg hsk]
      cases v with
      | vNull => exact ih acc p hacc hrest
      | vUndefined => exact ih acc p hacc hrest
      | vStr s0 =>
        dsimp only
        cases hev : extractValue (JValue.vStr s0) <;>
          first
          | exact ih acc p hacc hrest
          | exact ih _ p (mem_setKey_preserve k _ hne hacc) hrest
      | vNum n0 =>
        dsimp only
        cases hev : extractValue (JValue.vNum n0) <;>
          first
          | exact ih acc p hacc hrest
          | exact ih _ p (mem_setKey_preserve k _ hne hacc) hrest
      | vBool b0 =>
        dsimp only
        cases hev : extractValue (JValue.vBool b0) <;>
          first
          | exact ih acc p hacc hrest
          | exact ih _ p (mem_setKey_preserve k _ hne hacc) hrest
      | vObj f0 =>
        dsimp only
        cases hev : extractValue (JValue.vObj f0) <;>
          first
          | exact ih acc p hacc hrest
          | exact ih _ p (mem_setKey_preserve k _ hne hacc) hrest
      | vArr l0 =>
        dsimp only
        cases hev : extractValue (JValue.vArr l0) <;>
          first
          | exact ih acc p hacc hrest
          | exact ih _ p (mem_setKey_preserve k _ hne hacc) hrest

theorem directAttribLoop_complete (fields : List (String × JValue)) :
    ∀ (acc : PropSet) (k : String) (v : JValue),
    (fields.map Prod.fst).Nodup → (k, v) ∈ fields →
    skipKeys.contains k = false → v ≠ .vNull → v ≠ .vUndefined →
    extractValue v ≠ .vNull →
    (k, extractValue v) ∈ directAttribLoop fields acc := by
  induction fields with
  | nil => intro acc k v _ hmem; simp at hmem
  | cons kv rest ih =>
    intro acc k v hnd hmem hsk hvn hvu hen
    obtain ⟨k0, v0⟩ := kv
    have hnd2 : (rest.map Prod.fst).Nodup := by
      simp only [List.map_cons, List.nodup_cons] at hnd
      exact hnd.2
    rcases List.mem_cons.mp hmem with heq | hmem2
    · have hk : k0 = k := congrArg Prod.fst heq.symm
      have hv : v0 = v := congrArg Prod.snd heq.symm
      subst hk
      subst hv
      have hkeys : ¬ k0 ∈ rest.map Prod.fst := by
        simp only [List.map_cons, List.nodup_cons] at hnd
        exact hnd.1
      unfold directAttribLoop
      rw [if_neg (fun hh => Bool.false_ne_true (hsk ▸ hh))]
      cases v0 with
      | vNull => exact absurd rfl hvn
      | vUndefined => exact absurd rfl hvu
      | vStr s0 =>
        dsimp only
        cases hev : extractValue (JValue.vStr s0)
        case vNull => exact absurd hev hen
        all_goals
          exact directAttribLoop_preserve rest _ _ (mem_setKey_self acc k0 _) hkeys
      | vNum n0 =>
        dsimp only
        cases hev : extractValue (JValue.vNum n0)
        case vNull => exact absurd hev hen
        all_goals
          exact directAttribLoop_preserve rest _ _ (mem_setKey_self acc k0 _) hkeys
      | vBool b0 =>
        dsimp only
        cases hev : extractValue (JValue.vBool b0)
        case vNull => exact absurd hev hen
        all_goals
          exact directAttribLoop_preserve rest _ _ (mem_setKey_self acc k0 _) hkeys
      | vObj f0 =>
        dsimp only
        cases hev : extractValue (JValue.vObj f0)
        case vNull => exact absurd hev hen
        all_goals
          exact directAttribLoop_preserve rest _ _ (mem_setKey_self acc k0 _) hkeys
      | vArr l0 =>
        dsimp only
        cases hev : extractValue (JValue.vArr l0)
        case vNull => exact absurd hev hen
        all_goals
          exact directAttribLoop_preserve rest _ _ (mem_setKey_self acc k0 _) hkeys
    · unfold directAttribLoop
      by_cases hsk0 : skipKeys.contains k0 = true
      · rw [if_pos hsk0]
        exact ih acc k v hnd2 hmem2 hsk hvn hvu hen
      · rw [if_neg hsk0]
        cases v0 with
        | vNull => exact ih acc k v hnd2 hmem2 hsk hvn hvu hen
        | vUndefined => exact ih acc k v hnd2 hmem2 hsk hvn hvu hen
        | vStr s0 =>
          dsimp only
          cases hev : extractValue (JValue.vStr s0) <;>
            exact ih _ k v hnd2 hmem2 hsk hvn hvu hen
        | vNum n0 =>
          dsimp only
          cases hev : extractValue (JValue.vNum n0) <;>
            exact ih _ k v hnd2 hmem2 hsk hvn hvu hen
        | vBool b0 =>
          dsimp only
          cases hev : extractValue (JValue.vBool b0) <;>
            exact ih _ k v hnd2 hmem2 hsk hvn hvu hen
        | vObj f0 =>
          dsimp only
          cases hev : extractValue (JValue.vObj f0) <;>
            exact ih _ k v hnd2 hmem2 hsk hvn hvu hen
        | vArr l0 =>
          dsimp only
          cases hev : extractValue (JValue.vArr l0) <;>
            exact ih _ k v hnd2 hmem2 hsk hvn hvu hen

/-- C8 (amended): the direct-attributes mapping contains exactly the
top-level fields that survive the fixed exclusion list (`skipKeys`) with
non-null extracted values; identity/descriptive attributes such as `Name`
and `GlobalId` are not excluded and do appear. -/
theorem directAttributes_characterization (fields : List (String × JValue)) :
    (∀ p : String × JValue, p ∈ directAttributesOf fields →
      skipKeys.contains p.1 = false ∧ p.2 ≠ .vNull) ∧
    ((fields.map Prod.fst).Nodup →
      ∀ k v, (k, v) ∈ fields → skipKeys.contains k = false →
        v ≠ .vNull → v ≠ .vUndefined → extractValue v ≠ .vNull →
        (k, extractValue v) ∈ directAttributesOf fields) := by
  constructor
  · intro p h
    rcases directAttribLoop_mem fields [] p h with h2 | h2
    · simp at h2
    · exact h2
  · intro hnd k v hmem hsk hvn hvu hen
    exact directAttribLoop_complete fields [] k v hnd hmem hsk hvn hvu hen

/-- Witness for C8 (amended) at a one-field record. -/
theorem directAttributes_characterization_witness :
    skipKeys.contains "Name" = false ∧
    ("Name", JValue.vStr "Wall") ∈ directAttributesOf [("Name", JValue.vStr "Wall")] :=
  ⟨((directAttributes_characterization [("Name", .vStr "Wall")]).1
      ("Name", .vStr "Wall") (List.mem_singleton.mpr rfl)).1,
   (directAttributes_characterization [("Name", .vStr "Wall")]).2 (by simp)
     "Name" (.vStr "Wall") (List.mem_singleton.mpr rfl) rfl
     (fun hh => JValue.noConfusion hh) (fun hh => JValue.noConfusion hh)
     (fun hh => JValue.noConfusion hh)⟩

/-! ### C4: fetch failure handling -/

/-- The degraded view model rendered for an element whose raw-bundle fetch
raised: `dataObj` becomes `{type: "Unknown"}` and every derived block is
empty. -/
def unknownVM (localId : Nat) : ElementVM :=
  ⟨localId, "Unknown", .vNull, .vNull, .vNull, .vNull, .vNull, .vNull,
    [], "", [], "", [], [], []⟩

/-- C4 counterexample: a failing `getItemsData` does NOT omit the element
from the rendered output: the inner catch (main.ts:628) leaves `dataObj`
empty, main.ts:633 replaces it by `{type: "Unknown"}`, and a degraded card
is pushed for the element. -/
theorem fetch_failure_rendered_cex :
    updatePropertiesPanelBatch [(7, .error ())] = [unknownVM 7] ∧
    updatePropertiesPanelBatch [(7, .error ())] ≠ [] :=
  ⟨rfl, List.cons_ne_nil _ _⟩

theorem updatePropertiesPanelBatch_append (a b : List (Nat × Except Unit JValue)) :
    updatePropertiesPanelBatch (a ++ b) =
      updatePropertiesPanelBatch a ++ updatePropertiesPanelBatch b := by
  induction a with
  | nil => rfl
  | cons e rest ih =>
    simp only [List.cons_append, updatePropertiesPanelBatch]
    cases processElement e.1 e.2 <;> simp [ih]

/-- C4 (amended): when the raw-bundle fetch for one element raises, the
exception is caught and the element is rendered as the degraded "Unknown"
card (not omitted); the batch never propagates the exception and the
remaining elements' cards are unaffected. -/
theorem fetch_failure_renders_unknown (pre post : List (Nat × Except Unit JValue))
    (lid : Nat) :
    processElement lid (.error ()) = .ok (unknownVM lid) ∧
    updatePropertiesPanelBatch (pre ++ (lid, .error ()) :: post) =
      updatePropertiesPanelBatch pre ++ unknownVM lid :: updatePropertiesPanelBatch post := by
  refine ⟨rfl, ?_⟩
  rw [updatePropertiesPanelBatch_append]
  rfl

/-! ### C5: overlapping selection batches -/

/-- Batch A of the stale-selection scenario: element 1 named `"A"`. -/
def batchA : List (Nat × Except Unit JValue) := [(1, .ok (.vObj [("Name", .vStr "A")]))]

/-- Batch B of the stale-selection scenario: element 2 named `"B"`. -/
def batchB : List (Nat × Except Unit JValue) := [(2, .ok (.vObj [("Name", .vStr "B")]))]

/-- C5 counterexample: `updatePropertiesPanel` carries no generation token;
its commit (main.ts:917) assigns `innerHTML` unconditionally.  In the
scenario where batch B starts before batch A's fetches resolve but A's
commit executes last, the final panel holds A's view models — not only
B's, contradicting the claimed stale-batch discard. -/
theorem stale_batch_rendered_cex :
    runPanelCommits [] [batchB, batchA] = updatePropertiesPanelBatch batchA ∧
    (updatePropertiesPanelBatch batchA).map ElementVM.name = ["A"] ∧
    (updatePropertiesPanelBatch batchB).map ElementVM.name = ["B"] ∧
    (["A"] : List String) ≠ ["B"] :=
  ⟨rfl, rfl, rfl, by decide⟩

/-- C5 (amended): the rendered panel content is exactly the batch whose
commit executes last; no per-invocation token comparison exists, so a
superseded batch that completes last is rendered. -/
theorem last_commit_wins (p0 : List ElementVM)
    (cs : List (List (Nat × Except Unit JValue)))
    (c : List (Nat × Except Unit JValue)) :
    runPanelCommits p0 (cs ++ [c]) = updatePropertiesPanelBatch c := by
  unfold runPanelCommits
  rw [List.foldl_append]
  rfl

/-! ### C6: type label resolution -/

/-- Element data with two `IsTypedBy` records named `TypeA` then `TypeB`. -/
def typedTwoData : JValue :=
  .vObj [("Name", .vStr "El"),
    ("IsTypedBy", .vArr [.vObj [("Name", .vStr "TypeA")], .vObj [("Name", .vStr "TypeB")]])]

/-- C6 counterexample: with two type-definition records of non-empty names
`TypeA` (first) and `TypeB` (second), the resolved type label is `TypeB`:
the loop at main.ts:665-687 has no break, so the last truthy name wins,
not the first as claimed. -/
theorem typeInfo_first_record_cex :
    (processElement 1 (.ok typedTwoData)).map ElementVM.typeInfo = .ok "TypeB" ∧
    extractValue (jsGet (.vObj [("Name", .vStr "TypeA")]) "Name") = .vStr "TypeA" ∧
    ("TypeB" : String) ≠ "TypeA" :=
  ⟨rfl, rfl, by decide⟩

/-- C6 (amended): the type label resolved by the `IsTypedBy` loop is the
stringified extracted name of the LAST record whose extracted name is
truthy; in particular appending such a record overrides whatever label the
earlier records produced. -/
theorem typeInfo_last_truthy_name (pre : List JValue) :
    ∀ (r nm : JValue) (acc : String) (tp : PropSet) (res : String × PropSet),
    jsGetE r "Name" = .ok nm → truthy (extractValue nm) = true →
    typedByLoop (pre ++ [r]) acc tp = .ok res →
    res.1 = jstr (extractValue nm) := by
  induction pre with
  | nil =>
    intro r nm acc tp res hnm ht h
    simp only [List.nil_append] at h
    unfold typedByLoop at h
    rw [hnm] at h
    have h2 := congrArg Prod.fst (Except.ok.inj h).symm
    simpa [ht] using h2
  | cons q0 rest ih =>
    intro r nm acc tp res hnm ht h
    simp only [List.cons_append] at h
    unfold typedByLoop at h
    cases hq0 : jsGetE q0 "Name" with
    | error e0 => rw [hq0] at h; simp at h
    | ok nm0 =>
      rw [hq0] at h
      exact ih r nm _ _ res hnm ht h

/-- Witness for C6 (amended): records named `X` then `Y` resolve to `Y`. -/
theorem typeInfo_last_truthy_name_witness :
    (("Y", ([] : PropSet)).1 : String) = jstr (extractValue (.vStr "Y")) :=
  typeInfo_last_truthy_name [.vObj [("Name", .vStr "X")]] (.vObj [("Name", .vStr "Y")])
    (.vStr "Y") "" [] ("Y", []) rfl rfl rfl
